import Mathlib

/-!
Verification development for the GeoPhoto-Map ingestion pipeline.

The definitions below are a shallow embedding of the server's scan logic
(`performScan`, the `photos` table operations, the scan-status flag and the
HTTP trigger/manual-correction handlers).  External effects (the filesystem,
the `exiftool` subprocess, `heic-convert`, `sharp`, `Date.now()` and the
JavaScript date parser) are modelled as explicit per-file environment data;
everything else follows the source line by line.
-/

namespace GeoPhoto

/-! ### POSIX path helpers (`path.basename`, `path.extname`) -/

/-- Split a character list on a separator character. -/
def splitOnChar (sep : Char) : List Char → List (List Char)
  | [] => [[]]
  | c :: cs =>
    let r := splitOnChar sep cs
    if c = sep then [] :: r
    else
      match r with
      | [] => [[c]]
      | h :: t => (c :: h) :: t

/-- `path.basename` for the slash-separated paths produced by `path.join`. -/
def basename (p : String) : String :=
  ⟨(splitOnChar '/' p.data).getLastD p.data⟩

/-- `toLowerCase`. -/
def lowerStr (s : String) : String :=
  ⟨s.data.map Char.toLower⟩

/-- Suffix of a character list starting at its last `'.'`, if any. -/
def lastDotSuffix : List Char → Option (List Char)
  | [] => none
  | c :: rest =>
    match lastDotSuffix rest with
    | some s => some s
    | none => if c = '.' then some (c :: rest) else none

/-- `path.extname`: the extension of the base name, ignoring a leading dot
(`.bashrc` has no extension). -/
def extname (p : String) : String :=
  match (basename p).data with
  | [] => ""
  | _ :: rest =>
    match lastDotSuffix rest with
    | some s => ⟨s⟩
    | none => ""

/-- The fixed allow-list of recognized image extensions. -/
def imageExtensions : List String :=
  [".jpg", ".jpeg", ".png", ".webp", ".heic", ".heif", ".tiff", ".tif", ".bmp"]

/-- `imageExtensions.includes(path.extname(f).toLowerCase())`. -/
def isImageFile (f : String) : Bool :=
  imageExtensions.contains (lowerStr (extname f))

/-! ### Exif metadata extraction -/

/-- JavaScript truthiness of an optional string field (`undefined` and the
empty string are falsy). -/
def truthy : Option String → Bool
  | some s => !s.isEmpty
  | none => false

/-- The regex replace `^(\d{4}):(\d{2}):(\d{2})` → `$1-$2-$3` applied to the
exiftool date format. -/
def normalizeExifDate (s : String) : String :=
  match s.data with
  | y1 :: y2 :: y3 :: y4 :: ':' :: m1 :: m2 :: ':' :: d1 :: d2 :: rest =>
    if (y1.isDigit && y2.isDigit && y3.isDigit && y4.isDigit &&
        m1.isDigit && m2.isDigit && d1.isDigit && d2.isDigit) then
      ⟨y1 :: y2 :: y3 :: y4 :: '-' :: m1 :: m2 :: '-' :: d1 :: d2 :: rest⟩
    else s
  | _ => s

/-- The fields of the first record of exiftool's `-j -n` JSON output that the
scan reads; `none` models an absent (`undefined`) field. -/
structure ExifMeta where
  gpsLatitude : Option Rat
  gpsLongitude : Option Rat
  dateTimeOriginal : Option String
  createDate : Option String
deriving DecidableEq

/-- Outcome of `execSync("exiftool -j -n ...")` plus `JSON.parse`: either a
thrown error (spawn failure, non-zero exit, malformed output) or a parsed
metadata record. -/
inductive ExifOutcome
  | fail
  | ok (m : ExifMeta)
deriving DecidableEq

/-- The per-file metadata values the scan loop accumulates before inserting. -/
structure Extracted where
  lat : Option Rat
  lng : Option Rat
  timestamp : Option String
  hasGps : Nat
deriving DecidableEq

/-- The metadata block of the scan loop.  `parseDate` models
`t => new Date(t).toISOString()`, returning `none` when the parse throws
(invalid date); the thrown `RangeError` is caught by the surrounding
`catch (exifError)`, so the GPS fields assigned earlier survive and the
timestamp stays null. -/
def extractMeta (out : ExifOutcome) (parseDate : String → Option String) : Extracted :=
  match out with
  | .fail => ⟨none, none, none, 0⟩
  | .ok m =>
    let gps : Option Rat × Option Rat × Nat :=
      if m.gpsLatitude.isSome && m.gpsLongitude.isSome then
        (m.gpsLatitude, m.gpsLongitude, 1)
      else (none, none, 0)
    let timestamp : Option String :=
      if truthy m.dateTimeOriginal then
        parseDate (normalizeExifDate (m.dateTimeOriginal.getD ""))
      else if truthy m.createDate then
        parseDate (normalizeExifDate (m.createDate.getD ""))
      else none
    ⟨gps.1, gps.2.1, timestamp, gps.2.2⟩

/-! ### The photos table -/

/-- One row of the `photos` table. -/
structure Photo where
  id : Nat
  path : String
  filename : String
  latitude : Option Rat
  longitude : Option Rat
  timestamp : Option String
  has_gps : Nat
  thumbnail_path : Option String
deriving DecidableEq

/-- The `photos` table, in insertion order. -/
abbrev DB := List Photo

/-- `SELECT id FROM photos WHERE path = ?` viewed as an existence check. -/
def pathExists (db : DB) (p : String) : Bool :=
  db.any (fun r => r.path = p)

/-- The AUTOINCREMENT id assigned to the next inserted row. -/
def nextId (db : DB) : Nat := db.length + 1

/-! ### Per-file processing -/

/-- Outcome of `fs.promises.readFile`: a thrown error or a buffer of the
given byte length. -/
inductive ReadOutcome
  | fail
  | ok (size : Nat)
deriving DecidableEq

/-- The effects of the outside world on one file's processing. -/
structure FileEnv where
  exif : ExifOutcome
  readResult : ReadOutcome
  heicOk : Bool
  sharpOk : Bool
  now : Nat
  parseDate : String → Option String

/-- `` `thumb_${Date.now()}_${file}` ``. -/
def thumbName (now : Nat) (file : String) : String :=
  "thumb_" ++ toString now ++ "_" ++ file

/-- The thumbnail block of the scan loop, entered only when `hasGps = 1`.
Returns the value of `thumbFilename` at the insert, paired with whether the
thumbnail file was actually written.  Faithful to the source order: the
filename is assigned *before* `sharp(...).toFile`, so a resize failure is
caught with `thumbFilename` already non-null. -/
def mkThumb (env : FileEnv) (ext file : String) : Option String × Bool :=
  match env.readResult with
  | .fail => (none, false)
  | .ok size =>
    if size > 0 then
      if (ext = ".heic" || ext = ".heif") && !env.heicOk then (none, false)
      else (some (thumbName env.now file), env.sharpOk)
    else (none, false)

/-- Result of processing one candidate path. -/
structure FileResult where
  db : DB
  inserted : Bool
  thumbCreated : Bool
deriving DecidableEq

/-- The row built for a new candidate `filePath`, paired with whether its
thumbnail file was actually written. -/
def rowOf (env : FileEnv) (db : DB) (filePath : String) : Photo × Bool :=
  let ext := lowerStr (extname filePath)
  let file := basename filePath
  let e := extractMeta env.exif env.parseDate
  let tc := if e.hasGps = 1 then mkThumb env ext file else (none, false)
  (⟨nextId db, filePath, file, e.lat, e.lng, e.timestamp, e.hasGps, tc.1⟩, tc.2)

/-- The body of the scan loop for one candidate `filePath` (part_000 lines
181–250): skip if already indexed, extract metadata, conditionally
thumbnail, insert one row. -/
def processFile (env : FileEnv) (db : DB) (filePath : String) : FileResult :=
  if pathExists db filePath then ⟨db, false, false⟩
  else ⟨db ++ [(rowOf env db filePath).1], true, (rowOf env db filePath).2⟩

/-- Per-path environment for a whole run. -/
abbrev Env := String → FileEnv

/-- Fold the scan loop over a list of candidate paths. -/
def scanFiles (env : Env) (db : DB) (files : List String) : DB :=
  files.foldl (fun d p => (processFile (env p) d p).db) db

/-! ### Discovery and the two-pass run -/

/-- One configured root: whether `fs.existsSync` succeeds, and the
`getAllFiles` output when it does. -/
structure Root where
  present : Bool
  files : List String

/-- First pass, per root: keep existing roots and filter their files to
recognized image extensions. -/
def candidateLists (roots : List Root) : List (List String) :=
  roots.filterMap fun r =>
    if r.present then some (r.files.filter isImageFile) else none

/-- All candidates of a run, in processing order. -/
def candidates (roots : List Root) : List String :=
  (candidateLists roots).flatten

/-- `currentScanTotal` at the end of the first pass. -/
def scanTotal (roots : List Root) : Nat :=
  ((candidateLists roots).map List.length).sum

/-- The database effect of one run over the given roots. -/
def performScanDb (env : Env) (roots : List Root) (db : DB) : DB :=
  scanFiles env db (candidates roots)

/-! ### Run state and the guard / finally structure -/

/-- The module-level scan state of the server. -/
structure ScanState where
  isScanning : Bool
  lastScanTime : Option String
  currentScanTotal : Nat
  currentScanProcessed : Nat
  db : DB

/-- The control skeleton of `performScan`: the `if (isScanning) return`
guard, the check-and-set of the flag, the counter reset, an arbitrary run
body (which may signal an internal error via its `Bool` component — the
`catch` swallows it), and the `finally { isScanning = false }`. -/
def performScanFull (body : ScanState → ScanState × Bool) (s : ScanState) : ScanState :=
  if s.isScanning then s
  else
    let s1 := { s with isScanning := true, currentScanTotal := 0, currentScanProcessed := 0 }
    let r := body s1
    { r.1 with isScanning := false }

/-- The actual run body: count, process every candidate, record counters and
the completion time. -/
def realBody (env : Env) (roots : List Root) (finishTime : String)
    (s : ScanState) : ScanState × Bool :=
  let total := scanTotal roots
  ({ s with
      currentScanTotal := total
      currentScanProcessed := (candidates roots).length
      db := performScanDb env roots s.db
      lastScanTime := some finishTime }, false)

/-- A full `performScan` call. -/
def performScan (env : Env) (roots : List Root) (finishTime : String)
    (s : ScanState) : ScanState :=
  performScanFull (realBody env roots finishTime) s

/-! ### Manual location correction -/

/-- `UPDATE photos SET latitude = ?, longitude = ?, has_gps = 1 WHERE id = ?`.
The handler performs no validation: the bound values come straight from the
request body, so `none` models a JSON `null` coordinate. -/
def updateLocation (db : DB) (id : Nat) (latitude longitude : Option Rat) : DB :=
  db.map fun p =>
    if p.id = id then
      { p with latitude := latitude, longitude := longitude, has_gps := 1 }
    else p

/-- The data-model invariant `has_gps = 1 ⇔ latitude ≠ null ∧ longitude ≠ null`. -/
def gpsInvariant (p : Photo) : Prop :=
  p.has_gps = 1 ↔ (p.latitude ≠ none ∧ p.longitude ≠ none)

instance (p : Photo) : Decidable (gpsInvariant p) := by
  unfold gpsInvariant; infer_instance

/-- The conditional-thumbnailing invariant `thumbnail_path ≠ null ⇒ has_gps = 1`. -/
def thumbInvariant (p : Photo) : Prop :=
  p.thumbnail_path ≠ none → p.has_gps = 1

instance (p : Photo) : Decidable (thumbInvariant p) := by
  unfold thumbInvariant; infer_instance

/-! ### The trigger interface as an event system -/

/-- The events that touch the run-state flag: the 5-minute timer firing, a
`POST /api/scan` request, and a run's `finally` block executing. -/
inductive ScanEvent
  | timerFire
  | apiPost
  | runEnd
deriving DecidableEq

/-- Observable scan state plus a ghost count of runs in flight. -/
structure OrchState where
  isScanning : Bool
  activeRuns : Nat
  total : Nat
  processed : Nat
deriving DecidableEq

/-- Response of the `POST /api/scan` handler. -/
inductive TriggerResp
  | started
  | conflict
deriving DecidableEq

/-- Entry of `performScan` past the guard: set the flag, reset the counters. -/
def startRun (s : OrchState) : OrchState :=
  { isScanning := true, activeRuns := s.activeRuns + 1, total := 0, processed := 0 }

/-- One event step.  The timer branch is `if (isScanning) return;` inside
`performScan`; the api branch is the 409 guard of the `POST /api/scan`
handler; `runEnd` is the `finally` block of an active run. -/
def orchStep (s : OrchState) : ScanEvent → OrchState × Option TriggerResp
  | .timerFire => if s.isScanning then (s, none) else (startRun s, none)
  | .apiPost =>
    if s.isScanning then (s, some .conflict) else (startRun s, some .started)
  | .runEnd =>
    if s.activeRuns = 0 then (s, none)
    else ({ s with isScanning := false, activeRuns := s.activeRuns - 1 }, none)

/-- Run a sequence of events. -/
def orchRun (s : OrchState) (es : List ScanEvent) : OrchState :=
  es.foldl (fun t e => (orchStep t e).1) s

/-- The server's initial scan state. -/
def orchInit : OrchState := ⟨false, 0, 0, 0⟩

/-- Mutual exclusion: at most one run in flight, and the flag tracks it. -/
def orchInv (s : OrchState) : Prop :=
  s.activeRuns ≤ 1 ∧ (s.isScanning ↔ s.activeRuns = 1)

instance (s : OrchState) : Decidable (orchInv s) := by
  unfold orchInv; infer_instance

/-! ### The progress trace -/

/-- `currentScanTotal` after each iteration of the first (counting) pass,
starting from the reset to `0`. -/
def countTotals (roots : List Root) : List Nat :=
  roots.scanl
    (fun t r => t + (if r.present then (r.files.filter isImageFile).length else 0)) 0

/-- `(currentScanProcessed, currentScanTotal)` snapshots of the second pass:
the counter is incremented at the top of the loop body, once per candidate,
before the skip check and regardless of the file's outcome. -/
def procTrace (env : Env) (db : DB) (files : List String)
    (processed total : Nat) : List (Nat × Nat) :=
  match files with
  | [] => []
  | f :: fs =>
    (processed + 1, total) ::
      procTrace env (processFile (env f) db f).db fs (processed + 1) total

/-- All `(processed, total)` snapshots of one run, in order. -/
def runTrace (env : Env) (db : DB) (roots : List Root) : List (Nat × Nat) :=
  (countTotals roots).map (fun t => ((0 : Nat), t)) ++
    procTrace env db (candidates roots) 0 (scanTotal roots)

/-! ### Decimal rendering (`Date.now()` interpolation) -/

/-- Decimal digit characters of `n`, most significant first; the reference
implementation used to reason about `Nat.repr`. -/
def natDigitsChar (n : Nat) : List Char :=
  if n < 10 then [Nat.digitChar n]
  else natDigitsChar (n / 10) ++ [Nat.digitChar (n % 10)]
termination_by n
decreasing_by
  exact Nat.div_lt_self (by omega) (by omega)

/-- Numeric value of a digit character. -/
def charToDigit (c : Char) : Nat := c.toNat - 48

/-- Value of a most-significant-first digit character list. -/
def lval (cs : List Char) : Nat :=
  cs.foldl (fun a c => 10 * a + charToDigit c) 0

/-! ### Concrete fixtures for witnesses and counterexamples -/

/-- A date parser that always fails. -/
def pdNone : String → Option String := fun _ => none

/-- A file environment whose exiftool invocation throws. -/
def feFail : FileEnv := ⟨.fail, .fail, true, true, 0, pdNone⟩

/-- A run environment where every file's metadata extraction fails. -/
def envFail : Env := fun _ => feFail

/-- A one-row photos table. -/
def dbOne : DB := [⟨1, "/p/a.jpg", "a.jpg", none, none, none, 0, none⟩]

/-- One existing root containing two images and a text file. -/
def rootsOne : List Root := [⟨true, ["/p/a.jpg", "/p/b.jpg", "/p/readme.txt"]⟩]

/-- A geolocated file whose `sharp(...).toFile` call throws. -/
def feSharpFail : FileEnv :=
  ⟨.ok ⟨some 48, some 2, none, none⟩, .ok 100, true, false, 1234, pdNone⟩

/-- A geolocated file whose `fs.promises.readFile` call throws. -/
def feReadFail : FileEnv :=
  ⟨.ok ⟨some 48, some 2, none, none⟩, .fail, true, true, 99, pdNone⟩

/-- A geolocated HEIC file whose `heicConvert` call throws. -/
def feHeicFail : FileEnv :=
  ⟨.ok ⟨some 48, some 2, none, none⟩, .ok 100, false, true, 7, pdNone⟩

/-- An orchestrator state with a run in flight. -/
def busyState : OrchState := ⟨true, 1, 5, 3⟩

/-- An idle scan state. -/
def idleState : ScanState := ⟨false, none, 7, 7, dbOne⟩

/-- A run body that mutates the state and then signals an internal error. -/
def throwingBody : ScanState → ScanState × Bool :=
  fun s => ({ s with isScanning := true, currentScanTotal := 42 }, true)

/-- A date parser succeeding exactly on the normalized sample date. -/
def pdSample : String → Option String := fun s =>
  if s = "2024-05-01 10:00:00" then some "2024-05-01T10:00:00.000Z" else none

/-- Metadata with an empty original-capture field and a valid creation date. -/
def mEmptyDto : ExifMeta := ⟨none, none, some "", some "2024:05:01 10:00:00"⟩

/-- Metadata with only an original-capture date. -/
def mDtoOnly : ExifMeta := ⟨none, none, some "2024:05:01 10:00:00", none⟩


/-! ### Lemmas: decimal rendering is injective -/

theorem natDigitsChar_lt {n : Nat} (h : n < 10) :
    natDigitsChar n = [Nat.digitChar n] := by
  rw [natDigitsChar, if_pos h]

theorem natDigitsChar_ge {n : Nat} (h : ¬ n < 10) :
    natDigitsChar n = natDigitsChar (n / 10) ++ [Nat.digitChar (n % 10)] := by
  rw [natDigitsChar]
  exact if_neg h

theorem charToDigit_digitChar {d : Nat} (h : d < 10) :
    charToDigit (Nat.digitChar d) = d := by
  interval_cases d <;> decide

theorem lval_append_singleton (xs : List Char) (c : Char) :
    lval (xs ++ [c]) = 10 * lval xs + charToDigit c := by
  simp [lval, List.foldl_append]

theorem lval_natDigitsChar (n : Nat) : lval (natDigitsChar n) = n := by
  induction n using Nat.strong_induction_on with
  | _ n ih =>
    by_cases h : n < 10
    · rw [natDigitsChar_lt h]
      simpa [lval] using charToDigit_digitChar h
    · rw [natDigitsChar_ge h, lval_append_singleton,
        ih (n / 10) (Nat.div_lt_self (by omega) (by omega)),
        charToDigit_digitChar (Nat.mod_lt _ (by omega))]
      omega

theorem natDigitsChar_injective : Function.Injective natDigitsChar := by
  intro m n h
  have := lval_natDigitsChar m
  rw [h, lval_natDigitsChar] at this
  omega

theorem toDigitsCore_eq_natDigitsChar :
    ∀ (f n : Nat) (ds : List Char), n < f →
      Nat.toDigitsCore 10 f n ds = natDigitsChar n ++ ds := by
  intro f
  induction f with
  | zero => intro n ds h; omega
  | succ f ih =>
    intro n ds _
    rw [Nat.toDigitsCore]
    by_cases h10 : n / 10 = 0
    · have hn : n < 10 := by omega
      rw [if_pos h10, natDigitsChar_lt hn, Nat.mod_eq_of_lt hn]
      rfl
    · have hlt : n / 10 < f := by
        have := Nat.div_lt_self (n := n) (by omega) (by omega : 1 < 10)
        omega
      rw [if_neg h10, ih (n / 10) _ hlt,
        natDigitsChar_ge (by omega : ¬ n < 10), List.append_assoc]
      rfl

theorem natRepr_eq (n : Nat) : Nat.repr n = (natDigitsChar n).asString := by
  rw [Nat.repr, Nat.toDigits, toDigitsCore_eq_natDigitsChar (n + 1) n [] (by omega),
    List.append_nil]

theorem natRepr_injective : Function.Injective Nat.repr := by
  intro m n h
  rw [natRepr_eq, natRepr_eq] at h
  exact natDigitsChar_injective (by injection h)

theorem natDigitsChar_isDigit (n : Nat) : ∀ c ∈ natDigitsChar n, c.isDigit := by
  induction n using Nat.strong_induction_on with
  | _ n ih =>
    by_cases h : n < 10
    · rw [natDigitsChar_lt h]
      simp only [List.mem_singleton]
      rintro c rfl
      interval_cases n <;> decide
    · rw [natDigitsChar_ge h]
      simp only [List.mem_append, List.mem_singleton]
      rintro c (hc | rfl)
      · exact ih (n / 10) (Nat.div_lt_self (by omega) (by omega)) c hc
      · have : n % 10 < 10 := Nat.mod_lt _ (by omega)
        interval_cases hm : n % 10 <;> simp_all <;> decide

theorem natRepr_no_underscore (n : Nat) : '_' ∉ (Nat.repr n).data := by
  rw [natRepr_eq]
  intro hmem
  have := natDigitsChar_isDigit n '_' (by simpa [List.asString] using hmem)
  simp [Char.isDigit] at this

theorem sep_split {xs ys u v : List Char} (hx : '_' ∉ xs) (hy : '_' ∉ ys)
    (h : xs ++ '_' :: u = ys ++ '_' :: v) : xs = ys ∧ u = v := by
  induction xs generalizing ys with
  | nil =>
    cases ys with
    | nil => simpa using h
    | cons y ys =>
      simp only [List.nil_append, List.cons_append, List.cons.injEq] at h
      exact absurd (by simp [← h.1]) hy
  | cons x xs ihx =>
    cases ys with
    | nil =>
      simp only [List.cons_append, List.nil_append, List.cons.injEq] at h
      exact absurd (by simp [h.1]) hx
    | cons y ys =>
      simp only [List.cons_append, List.cons.injEq] at h
      have := ihx (by simp_all) (by simp_all) h.2
      exact ⟨by simp [h.1, this.1], this.2⟩

theorem thumbName_eq_iff (n n' : Nat) (f f' : String) :
    thumbName n f = thumbName n' f' ↔ (n = n' ∧ f = f') := by
  constructor
  · intro h
    have hd := congrArg String.data h
    simp only [thumbName, String.data_append] at hd
    have hd2 : ("thumb_".data : List Char) ++ ((Nat.repr n).data ++ '_' :: f.data) =
        "thumb_".data ++ ((Nat.repr n').data ++ '_' :: f'.data) := by
      simpa using hd
    have hd' := List.append_cancel_left hd2
    obtain ⟨h1, h2⟩ :=
      sep_split (natRepr_no_underscore n) (natRepr_no_underscore n') hd'
    exact ⟨natRepr_injective (String.ext h1), String.ext h2⟩
  · rintro ⟨rfl, rfl⟩
    rfl

/-! ### Lemmas: the scan loop and the photos table -/

theorem processFile_of_exists {fe : FileEnv} {db : DB} {f : String}
    (h : pathExists db f = true) : processFile fe db f = ⟨db, false, false⟩ := by
  simp [processFile, h]

theorem pathExists_append {db : DB} {row : Photo} {p : String} :
    pathExists (db ++ [row]) p = (pathExists db p || decide (row.path = p)) := by
  simp [pathExists]

theorem pathExists_processFile_mono {fe : FileEnv} {db : DB} {f p : String}
    (h : pathExists db p = true) :
    pathExists (processFile fe db f).db p = true := by
  unfold processFile
  by_cases hf : pathExists db f
  · simp [hf, h]
  · simp [hf, pathExists_append, h]

theorem pathExists_processFile_self (fe : FileEnv) (db : DB) (f : String) :
    pathExists (processFile fe db f).db f = true := by
  unfold processFile
  by_cases hf : pathExists db f
  · simp [hf]
  · simp [hf, pathExists_append, rowOf]

theorem scanFiles_cons (env : Env) (db : DB) (f : String) (fs : List String) :
    scanFiles env db (f :: fs) = scanFiles env (processFile (env f) db f).db fs := rfl

theorem pathExists_scanFiles_mono {env : Env} {db : DB} {files : List String}
    {p : String} (h : pathExists db p = true) :
    pathExists (scanFiles env db files) p = true := by
  induction files generalizing db with
  | nil => exact h
  | cons f fs ih => exact ih (pathExists_processFile_mono h)

theorem pathExists_scanFiles_covers (env : Env) (db : DB) (files : List String) :
    ∀ f ∈ files, pathExists (scanFiles env db files) f = true := by
  induction files generalizing db with
  | nil => simp
  | cons g gs ih =>
    intro f hf
    rcases List.mem_cons.1 hf with rfl | h
    · rw [scanFiles_cons]
      exact pathExists_scanFiles_mono (pathExists_processFile_self _ _ _)
    · exact ih _ f h

theorem scanFiles_skip_all {env : Env} {db : DB} {files : List String}
    (h : ∀ f ∈ files, pathExists db f = true) :
    scanFiles env db files = db := by
  induction files with
  | nil => rfl
  | cons g gs ih =>
    rw [scanFiles_cons, processFile_of_exists (h g (by simp))]
    exact ih fun f hf => h f (by simp [hf])

theorem performScanDb_idem (env envTwo : Env) (roots : List Root) (db : DB) :
    performScanDb envTwo roots (performScanDb env roots db) =
      performScanDb env roots db := by
  unfold performScanDb
  exact scanFiles_skip_all fun f hf => pathExists_scanFiles_covers env db _ f hf

theorem pathExists_iff {db : DB} {p : String} :
    pathExists db p = true ↔ p ∈ db.map Photo.path := by
  constructor
  · intro h
    rcases List.any_eq_true.1 h with ⟨r, hr, hrp⟩
    exact List.mem_map.2 ⟨r, hr, of_decide_eq_true hrp⟩
  · intro h
    rcases List.mem_map.1 h with ⟨r, hr, rfl⟩
    exact List.any_eq_true.2 ⟨r, hr, by simp⟩

theorem processFile_nodup {fe : FileEnv} {db : DB} {f : String}
    (h : (db.map Photo.path).Nodup) :
    ((processFile fe db f).db.map Photo.path).Nodup := by
  unfold processFile
  by_cases hf : pathExists db f
  · simpa [hf]
  · have hmem : f ∉ db.map Photo.path := fun hc => hf (pathExists_iff.2 hc)
    simp [hf, rowOf, List.nodup_append, h, hmem]

theorem scanFiles_nodup {env : Env} {db : DB} {files : List String}
    (h : (db.map Photo.path).Nodup) :
    ((scanFiles env db files).map Photo.path).Nodup := by
  induction files generalizing db with
  | nil => exact h
  | cons g gs ih => exact ih (processFile_nodup h)

/-! ### Lemmas: row invariants -/

theorem extractMeta_gps (out : ExifOutcome) (pd : String → Option String) :
    (extractMeta out pd).hasGps = 1 ↔
      ((extractMeta out pd).lat ≠ none ∧ (extractMeta out pd).lng ≠ none) := by
  cases out with
  | fail => simp [extractMeta]
  | ok m =>
    by_cases h : m.gpsLatitude.isSome && m.gpsLongitude.isSome
    · have h' := h
      rw [Bool.and_eq_true] at h'
      simp [extractMeta, h, Option.isSome_iff_ne_none.1 h'.1,
        Option.isSome_iff_ne_none.1 h'.2]
    · simp [extractMeta, h]

theorem rowOf_gpsInvariant (fe : FileEnv) (db : DB) (f : String) :
    gpsInvariant (rowOf fe db f).1 := by
  unfold gpsInvariant rowOf
  exact extractMeta_gps fe.exif fe.parseDate

theorem rowOf_thumbInvariant (fe : FileEnv) (db : DB) (f : String) :
    thumbInvariant (rowOf fe db f).1 := by
  unfold thumbInvariant rowOf
  by_cases h : (extractMeta fe.exif fe.parseDate).hasGps = 1
  · simp [h]
  · simp [h]

theorem rowOf_no_gps_no_thumb {fe : FileEnv} {db : DB} {f : String}
    (h : (extractMeta fe.exif fe.parseDate).hasGps ≠ 1) :
    ((rowOf fe db f).1).thumbnail_path = none := by
  simp [rowOf, h]

theorem scanFiles_forall (P : Photo → Prop)
    (hrow : ∀ (fe : FileEnv) (db : DB) (f : String), P (rowOf fe db f).1) :
    ∀ (files : List String) (env : Env) (db : DB),
      (∀ p ∈ db, P p) → ∀ p ∈ scanFiles env db files, P p := by
  intro files
  induction files with
  | nil => intro env db h p hp; exact h p hp
  | cons g gs ih =>
    intro env db h p hp
    rw [scanFiles_cons] at hp
    refine ih env _ ?_ p hp
    intro q hq
    unfold processFile at hq
    by_cases hg : pathExists db g
    · simp only [hg, if_true] at hq
      exact h q hq
    · simp only [hg, Bool.false_eq_true, if_false, List.mem_append,
        List.mem_singleton] at hq
      rcases hq with hq | rfl
      · exact h q hq
      · exact hrow _ _ _

theorem updateLocation_gpsInvariant {db : DB} {id : Nat} {lat lng : Option Rat}
    (hlat : lat ≠ none) (hlng : lng ≠ none)
    (h : ∀ p ∈ db, gpsInvariant p) :
    ∀ p ∈ updateLocation db id lat lng, gpsInvariant p := by
  intro p hp
  unfold updateLocation at hp
  rcases List.mem_map.1 hp with ⟨q, hq, rfl⟩
  by_cases hid : q.id = id
  · simp [hid, gpsInvariant, hlat, hlng]
  · simpa [hid] using h q hq

/-! ### Lemmas: the progress trace -/

theorem procTrace_eq (env : Env) :
    ∀ (files : List String) (db : DB) (p T : Nat),
      procTrace env db files p T =
        (List.range files.length).map fun k => (p + k + 1, T) := by
  intro files
  induction files with
  | nil => intro db p T; rfl
  | cons f fs ih =>
    intro db p T
    rw [procTrace, ih, List.length_cons, List.range_succ_eq_map,
      List.map_cons, List.map_map]
    refine congrArg₂ List.cons (by simp) (List.map_congr_left ?_)
    intro a _
    show (p + 1 + a + 1, T) = (p + (a + 1) + 1, T)
    have harith : p + 1 + a + 1 = p + (a + 1) + 1 := by omega
    rw [harith]

theorem pairwiseOfTotal {α : Type} (R : α → α → Prop) (h : ∀ a b, R a b) :
    ∀ l : List α, List.Pairwise R l := by
  intro l
  induction l with
  | nil => constructor
  | cons x xs ih => exact List.Pairwise.cons (fun b _ => h x b) ih

theorem scanl_cons_decomp {α β : Type} (f : β → α → β) (l : List α) (a : β) :
    ∃ t, l.scanl f a = a :: t := by
  cases l <;> simp [List.scanl]

theorem scanl_getLast {α β : Type} (f : β → α → β) :
    ∀ (l : List α) (a : β), (l.scanl f a).getLast? = some (l.foldl f a) := by
  intro l
  induction l with
  | nil => intro a; rfl
  | cons x xs ih =>
    intro a
    obtain ⟨t, ht⟩ := scanl_cons_decomp f xs (f a x)
    rw [List.scanl, ht, List.getLast?_cons_cons, ← ht, ih]
    rfl

theorem scanTotal_cons (r : Root) (rs : List Root) :
    scanTotal (r :: rs) =
      (if r.present then (r.files.filter isImageFile).length else 0) +
        scanTotal rs := by
  by_cases h : r.present <;>
    simp [scanTotal, candidateLists, List.filterMap_cons, h]

theorem foldl_count (roots : List Root) :
    ∀ a : Nat,
      roots.foldl
        (fun t r => t + (if r.present then (r.files.filter isImageFile).length else 0))
        a = a + scanTotal roots := by
  induction roots with
  | nil => intro a; simp [scanTotal, candidateLists]
  | cons r rs ih =>
    intro a
    simp only [List.foldl_cons]
    rw [ih, scanTotal_cons]
    by_cases h : r.present
    · simp only [h, if_true]
      omega
    · simp only [h, Bool.false_eq_true, if_false]
      omega

theorem countTotals_getLast (roots : List Root) :
    (countTotals roots).getLast? = some (scanTotal roots) := by
  rw [countTotals, scanl_getLast, foldl_count]
  simp

theorem scanTotal_eq (roots : List Root) :
    scanTotal roots = (candidates roots).length := by
  rw [scanTotal, candidates, List.length_flatten]

/-! ### Lemmas: the orchestrator event system -/

theorem orchStep_inv {s : OrchState} (hs : orchInv s) (e : ScanEvent) :
    orchInv (orchStep s e).1 := by
  obtain ⟨h1, h2⟩ := hs
  have hstart : ¬s.isScanning = true → orchInv (startRun s) := by
    intro h
    have h0 : s.activeRuns = 0 := by
      by_cases ha : s.activeRuns = 1
      · exact absurd (h2.mpr ha) h
      · omega
    simp [startRun, orchInv, h0]
  cases e with
  | timerFire =>
    by_cases h : s.isScanning = true
    · simp only [orchStep, h, if_true]
      exact ⟨h1, h2⟩
    · simp only [orchStep, h, if_false]
      exact hstart h
  | apiPost =>
    by_cases h : s.isScanning = true
    · simp only [orchStep, h, if_true]
      exact ⟨h1, h2⟩
    · simp only [orchStep, h, if_false]
      exact hstart h
  | runEnd =>
    by_cases h : s.activeRuns = 0
    · simp only [orchStep, h, if_true]
      exact ⟨h1, h2⟩
    · simp only [orchStep, h, if_false]
      refine ⟨show s.activeRuns - 1 ≤ 1 by omega, ?_⟩
      show (false = true) ↔ s.activeRuns - 1 = 1
      simp only [Bool.false_eq_true, false_iff]
      omega

theorem orchRun_inv : ∀ (es : List ScanEvent) (s : OrchState),
    orchInv s → orchInv (orchRun s es) := by
  intro es
  induction es with
  | nil => intro s h; exact h
  | cons e es ih => intro s h; exact ih _ (orchStep_inv h e)

/-! ### The claims -/

/-- C1: Running ingestion twice over an unchanged directory tree produces the
same set of Photo rows as running it once: for every path already present in
the index the run performs no insert (the existence check makes the insert a
no-op, never an error that aborts the run — `processFile` returns the table
unchanged), so no path ever has two rows (path-uniqueness is preserved by
every run). -/
theorem C1_ingestion_idempotent :
    (∀ (fe : FileEnv) (db : DB) (f : String),
        pathExists db f = true → processFile fe db f = ⟨db, false, false⟩) ∧
    (∀ (env envTwo : Env) (roots : List Root) (db : DB),
        performScanDb envTwo roots (performScanDb env roots db) =
          performScanDb env roots db) ∧
    (∀ (env : Env) (roots : List Root) (db : DB),
        (db.map Photo.path).Nodup →
          ((performScanDb env roots db).map Photo.path).Nodup) :=
  ⟨fun _ _ _ h => processFile_of_exists h,
   performScanDb_idem,
   fun _ _ _ h => scanFiles_nodup h⟩

theorem C1_ingestion_idempotent_witness :
    (pathExists dbOne "/p/a.jpg" = true ∧
      processFile feFail dbOne "/p/a.jpg" = ⟨dbOne, false, false⟩) ∧
    ((dbOne.map Photo.path).Nodup ∧
      ((performScanDb envFail rootsOne dbOne).map Photo.path).Nodup) :=
  ⟨⟨by decide, C1_ingestion_idempotent.1 feFail dbOne "/p/a.jpg" (by decide)⟩,
   ⟨by decide, C1_ingestion_idempotent.2.2 envFail rootsOne dbOne (by decide)⟩⟩

/-- C2: For every row inserted by the ingestion pipeline,
`thumbnail_path ≠ null` implies `has_gps = true`: thumbnail generation is
attempted only when geolocation was extracted, and a row without geolocation
is always inserted with a null `thumbnail_path`; the implication is an
invariant of the whole scan. -/
theorem C2_conditional_thumbnailing :
    (∀ (fe : FileEnv) (db : DB) (f : String), thumbInvariant (rowOf fe db f).1) ∧
    (∀ (fe : FileEnv) (db : DB) (f : String),
        (extractMeta fe.exif fe.parseDate).hasGps ≠ 1 →
          ((rowOf fe db f).1).thumbnail_path = none) ∧
    (∀ (files : List String) (env : Env) (db : DB),
        (∀ p ∈ db, thumbInvariant p) →
          ∀ p ∈ scanFiles env db files, thumbInvariant p) :=
  ⟨rowOf_thumbInvariant,
   fun _ _ _ h => rowOf_no_gps_no_thumb h,
   scanFiles_forall thumbInvariant rowOf_thumbInvariant⟩

theorem C2_conditional_thumbnailing_witness :
    ((rowOf feFail dbOne "/p/b.jpg").1).thumbnail_path = none ∧
    thumbInvariant (⟨2, "/p/b.jpg", "b.jpg", none, none, none, 0, none⟩ : Photo) :=
  ⟨C2_conditional_thumbnailing.2.1 feFail dbOne "/p/b.jpg" (by decide),
   C2_conditional_thumbnailing.2.2 ["/p/b.jpg"] envFail dbOne (by decide) _
     (by decide)⟩

/-- C3: If a run is already active, a timer-fired start attempt returns
without starting a second run and without any observable effect, and an
explicit trigger request is answered with a conflict signal while leaving
the active run's counters untouched; every reachable state has at most one
run active. -/
theorem C3_mutual_exclusion :
    (∀ s : OrchState, s.isScanning = true →
        orchStep s .timerFire = (s, none)) ∧
    (∀ s : OrchState, s.isScanning = true →
        orchStep s .apiPost = (s, some .conflict)) ∧
    (∀ es : List ScanEvent, orchInv (orchRun orchInit es)) :=
  ⟨fun s h => by simp [orchStep, h],
   fun s h => by simp [orchStep, h],
   fun es => orchRun_inv es orchInit (by decide)⟩

theorem C3_mutual_exclusion_witness :
    (busyState.isScanning = true ∧
      orchStep busyState .timerFire = (busyState, none) ∧
      orchStep busyState .apiPost = (busyState, some .conflict)) ∧
    orchInv (orchRun orchInit [.apiPost, .timerFire, .apiPost, .runEnd, .timerFire]) :=
  ⟨⟨rfl, C3_mutual_exclusion.1 busyState rfl, C3_mutual_exclusion.2.1 busyState rfl⟩,
   C3_mutual_exclusion.2.2 [.apiPost, .timerFire, .apiPost, .runEnd, .timerFire]⟩

/-- C4: Every run, on every control path — including an internal error
signalled anywhere in the run body — ends with the run-state flag cleared:
for an arbitrary body, a `performScan` call that actually starts a run
leaves `isScanning = false`, so a subsequent start attempt is never blocked
by a finished or failed run. -/
theorem C4_flag_cleared_on_exit :
    ∀ (body : ScanState → ScanState × Bool) (s : ScanState),
      s.isScanning = false → (performScanFull body s).isScanning = false := by
  intro body s h
  simp [performScanFull, h]

theorem C4_flag_cleared_on_exit_witness :
    idleState.isScanning = false ∧
    (performScanFull throwingBody idleState).isScanning = false :=
  ⟨rfl, C4_flag_cleared_on_exit throwingBody idleState rfl⟩

/-- C5: When reading or converting a geolocated file fails the row is
inserted with null `thumbnail_path`, and processing continues with the next
file; but when the resize/encode step (`sharp`) fails, the already-assigned
thumbnail filename is NOT reset: the row is inserted with a non-null
`thumbnail_path` naming a file that was never written (`thumbCreated =
false`), contradicting the claim's "thumbnail_path null".  The evaluation
below exhibits all three failure modes. -/
theorem C5_thumbnail_failure_evaluation :
    processFile feSharpFail [] "/photos/a.jpg" =
      ⟨[⟨1, "/photos/a.jpg", "a.jpg", some 48, some 2, none, 1,
          some "thumb_1234_a.jpg"⟩], true, false⟩ ∧
    processFile feReadFail [] "/photos/c.jpg" =
      ⟨[⟨1, "/photos/c.jpg", "c.jpg", some 48, some 2, none, 1, none⟩],
        true, false⟩ ∧
    processFile feHeicFail [] "/photos/d.heic" =
      ⟨[⟨1, "/photos/d.heic", "d.heic", some 48, some 2, none, 1, none⟩],
        true, false⟩ ∧
    pathExists
      (scanFiles (fun _ => feSharpFail) [] ["/photos/a.jpg", "/photos/b.jpg"])
      "/photos/b.jpg" = true := by
  refine ⟨?_, ?_, ?_, ?_⟩ <;> decide

/-- C6 counterexample: the manual-correction handler performs no validation
and sets `has_gps = 1` unconditionally, so a request with null coordinates
produces a row with `has_gps = 1` and `latitude = longitude = null`,
violating `has_gps = true ⇔ latitude ≠ null ∧ longitude ≠ null`. -/
theorem C6_counterexample :
    updateLocation dbOne 1 none none =
      [⟨1, "/p/a.jpg", "a.jpg", none, none, none, 1, none⟩] ∧
    ¬ gpsInvariant (⟨1, "/p/a.jpg", "a.jpg", none, none, none, 1, none⟩ : Photo) := by
  refine ⟨?_, ?_⟩ <;> decide

/-- C6 (amended): every row inserted by ingestion satisfies
`has_gps = 1 ⇔ latitude ≠ null ∧ longitude ≠ null`, and the manual
correction preserves the invariant provided the supplied latitude and
longitude are both non-null; with a null coordinate the unvalidated handler
breaks it (see the counterexample). -/
theorem C6_gps_invariant_amended :
    (∀ (files : List String) (env : Env) (db : DB),
        (∀ p ∈ db, gpsInvariant p) →
          ∀ p ∈ scanFiles env db files, gpsInvariant p) ∧
    (∀ (db : DB) (id : Nat) (lat lng : Option Rat),
        lat ≠ none → lng ≠ none → (∀ p ∈ db, gpsInvariant p) →
          ∀ p ∈ updateLocation db id lat lng, gpsInvariant p) :=
  ⟨scanFiles_forall gpsInvariant rowOf_gpsInvariant,
   fun _ _ _ _ hlat hlng h => updateLocation_gpsInvariant hlat hlng h⟩

theorem C6_gps_invariant_amended_witness :
    gpsInvariant (⟨2, "/p/b.jpg", "b.jpg", none, none, none, 0, none⟩ : Photo) ∧
    gpsInvariant (⟨1, "/p/a.jpg", "a.jpg", some 48, some 2, none, 1, none⟩ : Photo) :=
  ⟨C6_gps_invariant_amended.1 ["/p/b.jpg"] envFail dbOne (by decide) _ (by decide),
   C6_gps_invariant_amended.2 dbOne 1 (some 48) (some 2) (by decide) (by decide)
     (by decide) _ (by decide)⟩

/-- C7: If the external metadata process fails for a file, that file is
inserted with `has_gps = 0` and latitude, longitude and timestamp all null
(and no thumbnail), and processing continues: every candidate of a run ends
up indexed. -/
theorem C7_exif_failure_soft :
    (∀ (fe : FileEnv) (db : DB) (f : String),
        fe.exif = .fail → pathExists db f = false →
          processFile fe db f =
            ⟨db ++ [⟨nextId db, f, basename f, none, none, none, 0, none⟩],
              true, false⟩) ∧
    (∀ (env : Env) (db : DB) (files : List String) (f : String), f ∈ files →
        pathExists (scanFiles env db files) f = true) := by
  constructor
  · intro fe db f hexif hpath
    simp [processFile, hpath, rowOf, hexif, extractMeta]
  · intro env db files f hf
    exact pathExists_scanFiles_covers env db files f hf

theorem C7_exif_failure_soft_witness :
    (feFail.exif = .fail ∧ pathExists ([] : DB) "/p/c.jpg" = false) ∧
    processFile feFail [] "/p/c.jpg" =
      ⟨[⟨1, "/p/c.jpg", "c.jpg", none, none, none, 0, none⟩], true, false⟩ ∧
    pathExists (scanFiles envFail [] ["/p/c.jpg", "/p/d.jpg"]) "/p/d.jpg" = true :=
  ⟨⟨rfl, rfl⟩,
   C7_exif_failure_soft.1 feFail [] "/p/c.jpg" rfl rfl,
   C7_exif_failure_soft.2 envFail [] ["/p/c.jpg", "/p/d.jpg"] "/p/d.jpg"
     (by decide)⟩

/-- C8 counterexample: the preference check is JavaScript truthiness, not
presence.  With a present-but-empty original-capture field and a valid
creation date, the code emits the creation-date timestamp, whereas the claim
("the original-capture field is used when present") would normalize and
parse the empty string and emit null. -/
theorem C8_counterexample :
    mEmptyDto.dateTimeOriginal = some "" ∧
    (extractMeta (.ok mEmptyDto) pdSample).timestamp =
      some "2024-05-01T10:00:00.000Z" ∧
    pdSample (normalizeExifDate "") = none := by
  refine ⟨rfl, ?_, rfl⟩
  decide

/-- C8 (amended): the original-capture field is used when present and
non-empty; otherwise the creation-date field when present and non-empty;
otherwise the timestamp is null.  When a field is used, its colon-separated
date prefix is rewritten to dashes and the emitted timestamp is exactly the
parse result of the normalized string — null whenever that parse fails
(fail soft; the extraction always returns a record, never an error). -/
theorem C8_timestamp_amended :
    (∀ (m : ExifMeta) (pd : String → Option String),
        (truthy m.dateTimeOriginal = true →
          (extractMeta (.ok m) pd).timestamp =
            pd (normalizeExifDate (m.dateTimeOriginal.getD ""))) ∧
        (truthy m.dateTimeOriginal = false → truthy m.createDate = true →
          (extractMeta (.ok m) pd).timestamp =
            pd (normalizeExifDate (m.createDate.getD ""))) ∧
        (truthy m.dateTimeOriginal = false → truthy m.createDate = false →
          (extractMeta (.ok m) pd).timestamp = none)) ∧
    (∀ (y1 y2 y3 y4 mo1 mo2 d1 d2 : Char) (rest : List Char),
        y1.isDigit = true → y2.isDigit = true → y3.isDigit = true →
        y4.isDigit = true → mo1.isDigit = true → mo2.isDigit = true →
        d1.isDigit = true → d2.isDigit = true →
          normalizeExifDate
              ⟨y1 :: y2 :: y3 :: y4 :: ':' :: mo1 :: mo2 :: ':' :: d1 :: d2 :: rest⟩ =
            ⟨y1 :: y2 :: y3 :: y4 :: '-' :: mo1 :: mo2 :: '-' :: d1 :: d2 :: rest⟩) := by
  constructor
  · intro m pd
    refine ⟨fun h => ?_, fun h h' => ?_, fun h h' => ?_⟩ <;>
      simp [extractMeta, h, *]
  · intro y1 y2 y3 y4 mo1 mo2 d1 d2 rest h1 h2 h3 h4 h5 h6 h7 h8
    simp [normalizeExifDate, h1, h2, h3, h4, h5, h6, h7, h8]

theorem C8_timestamp_amended_witness :
    truthy mDtoOnly.dateTimeOriginal = true ∧
    (extractMeta (.ok mDtoOnly) pdSample).timestamp =
      pdSample (normalizeExifDate (mDtoOnly.dateTimeOriginal.getD "")) ∧
    normalizeExifDate ⟨['2', '0', '2', '4', ':', '0', '5', ':', '0', '1']⟩ =
      ⟨['2', '0', '2', '4', '-', '0', '5', '-', '0', '1']⟩ :=
  ⟨rfl,
   (C8_timestamp_amended.1 mDtoOnly pdSample).1 rfl,
   C8_timestamp_amended.2 '2' '0' '2' '4' '0' '5' '0' '1' [] rfl rfl rfl rfl
     rfl rfl rfl rfl⟩

/-- C9: Within a single run `processedCount` starts at 0, is non-decreasing,
and never exceeds `totalCandidates`; `totalCandidates` equals the count of
all discovered files matching a recognized image extension across all
(existing) roots and is fully accumulated before any candidate is processed
(every snapshot with a positive processed count already has the final
total); the counter is incremented once per candidate regardless of outcome,
so the final snapshot is `(total, total)` after exactly one step per
candidate. -/
theorem C9_progress_monotonic (env : Env) (db : DB) (roots : List Root) :
    List.Pairwise (fun a b => a.1 ≤ b.1) (runTrace env db roots) ∧
    (∀ x ∈ runTrace env db roots, x.1 ≤ scanTotal roots) ∧
    (∀ x ∈ runTrace env db roots, 0 < x.1 → x.2 = scanTotal roots) ∧
    scanTotal roots = (candidates roots).length ∧
    (runTrace env db roots).head? = some (0, 0) ∧
    (runTrace env db roots).getLast? = some (scanTotal roots, scanTotal roots) ∧
    (runTrace env db roots).length =
      (roots.length + 1) + (candidates roots).length := by
  have hB := procTrace_eq env (candidates roots) db 0 (scanTotal roots)
  have hT := scanTotal_eq roots
  refine ⟨?_, ?_, ?_, hT, ?_, ?_, ?_⟩
  · rw [runTrace, List.pairwise_append]
    refine ⟨?_, ?_, ?_⟩
    · rw [List.pairwise_map]
      exact pairwiseOfTotal _ (fun a b => Nat.le_refl 0) _
    · rw [hB, List.pairwise_map]
      exact (List.pairwise_lt_range _).imp (fun h => by omega)
    · intro a ha b hb
      rcases List.mem_map.1 ha with ⟨t, _, rfl⟩
      exact Nat.zero_le _
  · intro x hx
    rw [runTrace] at hx
    rcases List.mem_append.1 hx with h | h
    · rcases List.mem_map.1 h with ⟨t, _, rfl⟩
      exact Nat.zero_le _
    · rw [hB] at h
      rcases List.mem_map.1 h with ⟨k, hk, rfl⟩
      have hk' := List.mem_range.1 hk
      show 0 + k + 1 ≤ scanTotal roots
      omega
  · intro x hx hpos
    rw [runTrace] at hx
    rcases List.mem_append.1 hx with h | h
    · rcases List.mem_map.1 h with ⟨t, _, rfl⟩
      exact absurd hpos (Nat.lt_irrefl 0)
    · rw [hB] at h
      rcases List.mem_map.1 h with ⟨k, hk, rfl⟩
      rfl
  · cases roots with
    | nil => rfl
    | cons r rs => rfl
  · by_cases hc : candidates roots = []
    · have hT0 : scanTotal roots = 0 := by
        rw [hT, hc]
        rfl
      rw [runTrace, hc]
      rw [show procTrace env db [] 0 (scanTotal roots) = [] from rfl,
        List.append_nil, List.getLast?_map, countTotals_getLast]
      simp [hT0]
    · obtain ⟨m, hm⟩ : ∃ m, (candidates roots).length = m + 1 := by
        cases hcand : candidates roots with
        | nil => exact absurd hcand hc
        | cons a l => exact ⟨l.length, rfl⟩
      have hBne : procTrace env db (candidates roots) 0 (scanTotal roots) ≠ [] := by
        rw [hB, hm, List.range_succ]
        simp
      rw [runTrace, List.getLast?_append_of_ne_nil _ hBne, hB, hm,
        List.range_succ, List.map_append]
      simp only [List.map_cons, List.map_nil]
      rw [List.getLast?_concat]
      have harith : 0 + m + 1 = scanTotal roots := by omega
      rw [harith]
  · rw [runTrace, List.length_append, List.length_map, countTotals,
      List.length_scanl, hB, List.length_map, List.length_range]

theorem C9_progress_monotonic_witness :
    ((1, 2) : Nat × Nat).1 ≤ scanTotal rootsOne ∧
    ((1, 2) : Nat × Nat).2 = scanTotal rootsOne :=
  ⟨(C9_progress_monotonic envFail [] rootsOne).2.1 (1, 2) (by decide),
   (C9_progress_monotonic envFail [] rootsOne).2.2.1 (1, 2) (by decide)
     (by decide)⟩

/-- C10 counterexample: two distinct thumbnail-generation events — distinct
source files that share a base name, thumbnailed in the same `Date.now()`
millisecond — receive identical generated filenames, so the second
overwrites the first. -/
theorem C10_counterexample :
    ("/a/IMG_1.jpg" : String) ≠ "/b/IMG_1.jpg" ∧
    thumbName 1700000000000 (basename "/a/IMG_1.jpg") =
      thumbName 1700000000000 (basename "/b/IMG_1.jpg") := by
  refine ⟨?_, ?_⟩ <;> decide

/-- C10 (amended): generated thumbnail filenames collide exactly when both
the millisecond timestamp and the source base name coincide — names differ
whenever the timestamps differ or the base names differ, but two generation
events in the same millisecond for files with equal base names (as in the
counterexample) produce the same filename. -/
theorem C10_thumbname_amended (n nTwo : Nat) (f fTwo : String) :
    thumbName n f = thumbName nTwo fTwo ↔ (n = nTwo ∧ f = fTwo) :=
  thumbName_eq_iff n nTwo f fTwo

end GeoPhoto
